import Mathlib

/-!
Verification of the quasi-harmonic entropy model in `src/source/calc_entropy.py`.

Python floats are modelled as real numbers; `math.exp`, `math.log`,
`math.tanh`, `math.sqrt` and `math.pi` become their `Real` counterparts.
Two fallible float behaviours matter for the claims and are modelled
explicitly where they are reachable:

* `math.exp x` raises `OverflowError` exactly when the (double) argument
  exceeds `log DBL_MAX ≈ 709.782712893384`; `ho_entropy` catches this and
  returns `0`, so the embedding uses an explicit threshold test on the
  argument (`EXP_ARG_MAX`).
* In Python 3, `b ** (1.0/3.0)` with a negative base `b` produces a
  *complex* number, and the subsequent comparison `L_m <= 0.0` in
  `nu_trans_cm` then raises `TypeError`; the embedding of `nu_trans_cm`
  returns `Option ℝ`, with `none` for that failing path.

All other code paths exercised by the claims are pure real arithmetic.
-/

noncomputable section

-- ---- constants ---- (calc_entropy.py lines 14-24)

def kB : ℝ := 1.380649e-23

def h : ℝ := 6.62607015e-34

def c_m : ℝ := 299792458

def c_cm : ℝ := c_m * 100

def R : ℝ := 8.31446261815324

def NA : ℝ := 6.02214076e23

def amu_kg : ℝ := 1.66053906660e-27

def bohr_m : ℝ := 5.29177210903e-11

def Eh_J : ℝ := 4.3597447222071e-18

def Eh_to_Jmol : ℝ := Eh_J * NA

/-- Largest double argument for which `math.exp` does not raise
`OverflowError` (`log DBL_MAX`); used to model the `try/except
OverflowError` in `ho_entropy`. -/
def EXP_ARG_MAX : ℝ := 709.782712893384

-- ---- orientational anharmonic softening (calc_entropy.py lines 29-46) ----

/-- Embedding of `_langevin`: Langevin function `L(x) = coth(x) - 1/x`
with the three numerically-motivated branches of the source, selected
on `abs x`. -/
def _langevin (x : ℝ) : ℝ :=
  if |x| < 1e-3 then
    x / 3 - x * (x * x) / 45 + 2 * x * (x * x) * (x * x) / 945
  else if |x| > 50 then
    1 - 1 / x
  else
    1 / Real.tanh x - 1 / x

/-- Embedding of `_keff_from_muE`: effective curvature for
`V(Θ) = muE (1 - cos Θ)` mapped to `(1/2) k_eff Θ²`. -/
def _keff_from_muE (muE_J T : ℝ) : ℝ :=
  if muE_J ≤ 0 then 0
  else muE_J * _langevin (muE_J / (kB * T))

-- ---- positivity of the physical constants ----

lemma kB_pos : (0 : ℝ) < kB := by norm_num [kB]

lemma h_pos : (0 : ℝ) < h := by norm_num [h]

lemma c_m_pos : (0 : ℝ) < c_m := by norm_num [c_m]

lemma c_cm_pos : (0 : ℝ) < c_cm := by norm_num [c_cm, c_m]

lemma R_pos : (0 : ℝ) < R := by norm_num [R]

lemma Eh_to_Jmol_pos : (0 : ℝ) < Eh_to_Jmol := by norm_num [Eh_to_Jmol, Eh_J, NA]

-- ---- the softened curvature is strictly below the bare curvature ----

/-- On every branch of the source, `L(x) < 1` for `x > 0`. -/
lemma langevin_lt_one (x : ℝ) (hx : 0 < x) : _langevin x < 1 := by
  unfold _langevin
  split_ifs with h1 h2
  · -- series branch, 0 < x < 1e-3
    rw [abs_of_pos hx] at h1
    have hx1 : x ≤ 1 := by nlinarith
    have h3 : 0 < x * (x * x) := by positivity
    have h5 : x * (x * x) * (x * x) ≤ x := by nlinarith [mul_pos hx hx, mul_pos (mul_pos hx hx) (mul_pos hx hx)]
    nlinarith
  · -- asymptotic branch, x > 50
    have hinv : 0 < 1 / x := by positivity
    linarith
  · -- exact branch: coth x - 1/x < 1
    have hE : 0 < Real.exp x := Real.exp_pos x
    have hs : 0 < Real.sinh x := Real.sinh_pos_iff.mpr hx
    have hkey : 1 + 2 * x < Real.exp x ^ 2 := by
      have h2x : 2 * x + 1 < Real.exp (2 * x) := by
        have := Real.add_one_lt_exp (show (2 : ℝ) * x ≠ 0 by positivity)
        linarith
      have hrw : Real.exp (2 * x) = Real.exp x ^ 2 := by
        rw [two_mul, Real.exp_add]; ring
      rw [hrw] at h2x; linarith
    rw [Real.tanh_eq_sinh_div_cosh, one_div_div,
      div_sub_div _ _ (ne_of_gt hs) (ne_of_gt hx), div_lt_one (by positivity)]
    rw [Real.cosh_eq, Real.sinh_eq, Real.exp_neg] at *
    have hne : Real.exp x ≠ 0 := ne_of_gt hE
    have hinv : Real.exp x * (Real.exp x)⁻¹ = 1 := mul_inv_cancel₀ hne
    nlinarith [mul_pos hE hE, mul_pos hx hE]

/-- C1: the orientational-softening function is claimed odd on all three
branches, but the asymptotic branch ignores the sign of `x`: at the failing
input `x = -100` the code returns `1 - 1/(-100) = 1.01`, whereas oddness
(and the docstring `L(x) = coth(x) - 1/x`) requires `-(1 - 1/100) = -0.99`. -/
theorem C1_code_eval :
    _langevin (-100) = 1 + 1 / 100 ∧ _langevin 100 = 1 - 1 / 100 ∧
      _langevin (-100) ≠ -_langevin 100 := by
  have e1 : _langevin (-100) = 1 + 1 / 100 := by
    unfold _langevin
    rw [if_neg (by rw [abs_of_nonpos (by norm_num)]; norm_num),
      if_pos (by rw [abs_of_nonpos (by norm_num)]; norm_num)]
    norm_num
  have e2 : _langevin 100 = 1 - 1 / 100 := by
    unfold _langevin
    rw [if_neg (by rw [abs_of_nonneg (by norm_num)]; norm_num),
      if_pos (by rw [abs_of_nonneg (by norm_num)]; norm_num)]
  exact ⟨e1, e2, by rw [e1, e2]; norm_num⟩

/-- C5: the three branch formulas of `_langevin` are exactly the ones the
specification states, and branch selection depends only on `abs x`:
the 5th-order series for `abs x < 1e-3`, the asymptote `1 - 1/x` for
`abs x > 50`, and the exact `1/tanh x - 1/x` otherwise. -/
theorem C5_theorem (x : ℝ) :
    (|x| < 1e-3 → _langevin x = x / 3 - x ^ 3 / 45 + 2 * x ^ 5 / 945) ∧
    (|x| > 50 → _langevin x = 1 - 1 / x) ∧
    (1e-3 ≤ |x| → |x| ≤ 50 → _langevin x = 1 / Real.tanh x - 1 / x) := by
  refine ⟨?_, ?_, ?_⟩
  · intro hs
    unfold _langevin
    rw [if_pos hs]; ring
  · intro ha
    unfold _langevin
    have hnot : ¬ |x| < 1e-3 := by
      intro hc
      norm_num at hc ha
      linarith
    rw [if_neg hnot, if_pos ha]
  · intro hlo hhi
    unfold _langevin
    rw [if_neg (not_lt.mpr hlo), if_neg (not_lt.mpr hhi)]

/-- Witness for C5 at concrete inputs in each of the three branches. -/
theorem C5_witness :
    _langevin (1/2000) = (1/2000) / 3 - (1/2000) ^ 3 / 45 + 2 * (1/2000) ^ 5 / 945 ∧
    _langevin 100 = 1 - 1 / 100 ∧
    _langevin 1 = 1 / Real.tanh 1 - 1 / 1 := by
  refine ⟨(C5_theorem (1/2000)).1 ?_, (C5_theorem 100).2.1 ?_, (C5_theorem 1).2.2 ?_ ?_⟩
  · rw [abs_of_nonneg (by norm_num)]; norm_num
  · rw [abs_of_nonneg (by norm_num)]; norm_num
  · rw [abs_of_nonneg (by norm_num)]; norm_num
  · rw [abs_of_nonneg (by norm_num)]; norm_num

/-- C4: `_keff_from_muE` returns `0` for every `muE ≤ 0`; for `muE > 0`
and `T > 0` it returns `muE * L(muE/(kB T))`, and that value is strictly
less than `muE` (softening strictly reduces the effective curvature). -/
theorem C4_theorem :
    (∀ muE_J T : ℝ, muE_J ≤ 0 → _keff_from_muE muE_J T = 0) ∧
    (∀ muE_J T : ℝ, 0 < muE_J → 0 < T →
      _keff_from_muE muE_J T = muE_J * _langevin (muE_J / (kB * T)) ∧
      _keff_from_muE muE_J T < muE_J) := by
  constructor
  · intro muE_J T hle
    unfold _keff_from_muE
    rw [if_pos hle]
  · intro muE_J T hmu hT
    have heq : _keff_from_muE muE_J T = muE_J * _langevin (muE_J / (kB * T)) := by
      unfold _keff_from_muE
      rw [if_neg (not_le.mpr hmu)]
    refine ⟨heq, ?_⟩
    rw [heq]
    have hx : 0 < muE_J / (kB * T) := div_pos hmu (mul_pos kB_pos hT)
    have hL := langevin_lt_one _ hx
    nlinarith

/-- Witness for C4 at concrete inputs on both sides of the guard. -/
theorem C4_witness :
    _keff_from_muE (-1) 300 = 0 ∧
    _keff_from_muE 1 300 = 1 * _langevin (1 / (kB * 300)) ∧
    _keff_from_muE 1 300 < 1 := by
  refine ⟨C4_theorem.1 (-1) 300 (by norm_num), ?_, ?_⟩
  · exact (C4_theorem.2 1 300 (by norm_num) (by norm_num)).1
  · exact (C4_theorem.2 1 300 (by norm_num) (by norm_num)).2

-- ---- per-mode harmonic-oscillator entropy (calc_entropy.py lines 153-162) ----

/-- Embedding of `ho_entropy`: quantum HO entropy per mode (J/mol/K) from a
wavenumber (cm⁻¹).  `x` abbreviates `h c_cm nu / (kB T)` in the source; the
`try/except OverflowError` around `math.exp x` is modelled by the
`EXP_ARG_MAX < x` test (see the file comment). -/
def ho_entropy (nu_cm T : ℝ) : ℝ :=
  if nu_cm ≤ 0 then 0
  else if EXP_ARG_MAX < h * c_cm * nu_cm / (kB * T) then 0
  else
    R * (h * c_cm * nu_cm / (kB * T) / (Real.exp (h * c_cm * nu_cm / (kB * T)) - 1)
      - Real.log (1 - Real.exp (-(h * c_cm * nu_cm / (kB * T)))))

/-- Evaluation of `ho_entropy` on the non-degenerate, non-overflowing path. -/
lemma ho_entropy_eval (nu T : ℝ) (hnu : 0 < nu)
    (hov : h * c_cm * nu / (kB * T) ≤ EXP_ARG_MAX) :
    ho_entropy nu T =
      R * (h * c_cm * nu / (kB * T) / (Real.exp (h * c_cm * nu / (kB * T)) - 1)
        - Real.log (1 - Real.exp (-(h * c_cm * nu / (kB * T))))) := by
  unfold ho_entropy
  rw [if_neg (not_le.mpr hnu), if_neg (not_lt.mpr hov)]

/-- The dimensionless HO-entropy kernel `x/(eˣ-1) - log(1-e⁻ˣ)` is positive
for `x > 0`. -/
lemma ho_core_pos (x : ℝ) (hx : 0 < x) :
    0 < x / (Real.exp x - 1) - Real.log (1 - Real.exp (-x)) := by
  have h1 : 1 < Real.exp x := by
    have := Real.add_one_lt_exp (ne_of_gt hx); linarith
  have h2 : Real.exp (-x) < 1 := by
    have := Real.exp_lt_exp.mpr (show -x < 0 by linarith)
    rwa [Real.exp_zero] at this
  have h3 : 0 < 1 - Real.exp (-x) := by linarith
  have hlog : Real.log (1 - Real.exp (-x)) < 0 :=
    Real.log_neg h3 (by linarith [Real.exp_pos (-x)])
  have hdiv : 0 < x / (Real.exp x - 1) := div_pos hx (by linarith)
  linarith

/-- Derivative of the HO-entropy kernel at `x > 0`. -/
lemma ho_core_hasDerivAt (x : ℝ) (hx : 0 < x) :
    HasDerivAt (fun y => y / (Real.exp y - 1) - Real.log (1 - Real.exp (-y)))
      ((1 * (Real.exp x - 1) - x * Real.exp x) / (Real.exp x - 1) ^ 2
        - -(Real.exp (-x) * (-1)) / (1 - Real.exp (-x))) x := by
  have hE1 : Real.exp x - 1 ≠ 0 := by
    have := Real.add_one_lt_exp (ne_of_gt hx); intro hc; linarith
  have h1e : (1 : ℝ) - Real.exp (-x) ≠ 0 := by
    have h2 : Real.exp (-x) < 1 := by
      have := Real.exp_lt_exp.mpr (show -x < 0 by linarith)
      rwa [Real.exp_zero] at this
    intro hc; linarith
  have d1 : HasDerivAt (fun y : ℝ => y / (Real.exp y - 1))
      ((1 * (Real.exp x - 1) - x * Real.exp x) / (Real.exp x - 1) ^ 2) x :=
    (hasDerivAt_id' x).div ((Real.hasDerivAt_exp x).sub_const 1) hE1
  have dneg : HasDerivAt (fun y : ℝ => -y) (-1) x := (hasDerivAt_id x).neg
  have dexp : HasDerivAt (fun y : ℝ => Real.exp (-y)) (Real.exp (-x) * (-1)) x := dneg.exp
  have dinner : HasDerivAt (fun y : ℝ => 1 - Real.exp (-y)) (-(Real.exp (-x) * (-1))) x :=
    dexp.const_sub 1
  have d2 : HasDerivAt (fun y : ℝ => Real.log (1 - Real.exp (-y)))
      (-(Real.exp (-x) * (-1)) / (1 - Real.exp (-x))) x := dinner.log h1e
  exact d1.sub d2

/-- The derivative of the HO-entropy kernel is negative for `x > 0`. -/
lemma ho_core_deriv_neg (x : ℝ) (hx : 0 < x) :
    (1 * (Real.exp x - 1) - x * Real.exp x) / (Real.exp x - 1) ^ 2
      - -(Real.exp (-x) * (-1)) / (1 - Real.exp (-x)) < 0 := by
  have hE : 1 < Real.exp x := by
    have := Real.add_one_lt_exp (ne_of_gt hx); linarith
  have hEpos : 0 < Real.exp x := Real.exp_pos x
  have hE1 : Real.exp x - 1 ≠ 0 := by intro hc; linarith
  have hne : Real.exp x ≠ 0 := ne_of_gt hEpos
  have hsub : (1 : ℝ) - (Real.exp x)⁻¹ ≠ 0 := by
    have hlt : (Real.exp x)⁻¹ < 1 := by
      rw [inv_lt_one_iff₀]; right; exact hE
    intro hc; linarith
  rw [Real.exp_neg]
  have key : (1 * (Real.exp x - 1) - x * Real.exp x) / (Real.exp x - 1) ^ 2
      - -((Real.exp x)⁻¹ * (-1)) / (1 - (Real.exp x)⁻¹)
      = -(x * Real.exp x) / (Real.exp x - 1) ^ 2 := by
    field_simp
    ring
  rw [key, neg_div, neg_lt_zero]
  exact div_pos (mul_pos hx hEpos) (by positivity)

/-- The HO-entropy kernel is strictly decreasing on `(0, ∞)`. -/
lemma ho_core_strictAntiOn :
    StrictAntiOn (fun y => y / (Real.exp y - 1) - Real.log (1 - Real.exp (-y)))
      (Set.Ioi (0 : ℝ)) := by
  apply strictAntiOn_of_deriv_neg (convex_Ioi 0)
  · intro y hy
    exact (ho_core_hasDerivAt y hy).differentiableAt.continuousAt.continuousWithinAt
  · intro y hy
    rw [interior_Ioi] at hy
    rw [(ho_core_hasDerivAt y hy).deriv]
    exact ho_core_deriv_neg y hy

/-- C3 counterexample: over the stated domain ν ≥ 0 the HO entropy is not
strictly decreasing, because the `ν ≤ 0` guard returns `0` at `ν = 0` while
the entropy at `ν = 1`, `T = 1` is strictly positive. -/
theorem C3_counterexample :
    ho_entropy 0 1 = 0 ∧ 0 < ho_entropy 1 1 ∧
      ¬ ho_entropy 1 1 < ho_entropy 0 1 := by
  have e0 : ho_entropy 0 1 = 0 := by
    unfold ho_entropy; rw [if_pos le_rfl]
  have hov : h * c_cm * 1 / (kB * 1) ≤ EXP_ARG_MAX := by
    norm_num [h, c_cm, c_m, kB, EXP_ARG_MAX]
  have hx : 0 < h * c_cm * 1 / (kB * 1) := by
    norm_num [h, c_cm, c_m, kB]
  have e1 : 0 < ho_entropy 1 1 := by
    rw [ho_entropy_eval 1 1 one_pos hov]
    exact mul_pos R_pos (ho_core_pos _ hx)
  exact ⟨e0, e1, by rw [e0]; exact not_lt.mpr (le_of_lt e1)⟩

/-- C3 (amended): for fixed `T > 0`, `ho_entropy` is strictly decreasing in
the wavenumber on `ν > 0` as long as the larger argument stays below the
overflow threshold (outside that region the code returns the constant `0`,
so strictness necessarily fails there and at `ν = 0`). -/
theorem C3_theorem (T nu1 nu2 : ℝ) (hT : 0 < T) (h1 : 0 < nu1) (h12 : nu1 < nu2)
    (hov : h * c_cm * nu2 / (kB * T) ≤ EXP_ARG_MAX) :
    ho_entropy nu2 T < ho_entropy nu1 T := by
  have hkT : 0 < kB * T := mul_pos kB_pos hT
  have hhc : 0 < h * c_cm := mul_pos h_pos c_cm_pos
  have hx1 : 0 < h * c_cm * nu1 / (kB * T) := div_pos (mul_pos hhc h1) hkT
  have hlt : h * c_cm * nu1 / (kB * T) < h * c_cm * nu2 / (kB * T) := by
    rw [div_lt_div_iff₀ hkT hkT]
    have : h * c_cm * nu1 < h * c_cm * nu2 := by nlinarith
    nlinarith
  have hov1 : h * c_cm * nu1 / (kB * T) ≤ EXP_ARG_MAX := le_trans (le_of_lt hlt) hov
  rw [ho_entropy_eval nu1 T h1 hov1, ho_entropy_eval nu2 T (lt_trans h1 h12) hov]
  have hanti := ho_core_strictAntiOn (Set.mem_Ioi.mpr hx1)
    (Set.mem_Ioi.mpr (lt_trans hx1 hlt)) hlt
  simp only at hanti
  exact mul_lt_mul_of_pos_left hanti R_pos

/-- Witness for the amended C3 at `T = 1`, `ν₁ = 1 < ν₂ = 2`. -/
theorem C3_witness : ho_entropy 2 1 < ho_entropy 1 1 := by
  apply C3_theorem 1 1 2 (by norm_num) (by norm_num) (by norm_num)
  norm_num [h, c_cm, c_m, kB, EXP_ARG_MAX]

/-- C9: `ho_entropy` returns `0` for every `ν ≤ 0` (any `T > 0`), and when
the evaluation of `eˣ` would overflow (argument beyond the double range)
it returns `0` instead of surfacing a failure. -/
theorem C9_theorem :
    (∀ nu T : ℝ, nu ≤ 0 → 0 < T → ho_entropy nu T = 0) ∧
    (∀ nu T : ℝ, 0 < nu → 0 < T → EXP_ARG_MAX < h * c_cm * nu / (kB * T) →
      ho_entropy nu T = 0) := by
  constructor
  · intro nu T hnu _
    unfold ho_entropy
    rw [if_pos hnu]
  · intro nu T hnu _ hov
    unfold ho_entropy
    rw [if_neg (not_le.mpr hnu), if_pos hov]

/-- Witness for C9: a non-positive wavenumber and an overflowing mode. -/
theorem C9_witness : ho_entropy (-1) 300 = 0 ∧ ho_entropy 1e10 1 = 0 := by
  refine ⟨C9_theorem.1 (-1) 300 (by norm_num) (by norm_num), ?_⟩
  apply C9_theorem.2 1e10 1 (by norm_num) (by norm_num)
  norm_num [h, c_cm, c_m, kB, EXP_ARG_MAX]

-- ---- Boltzmann-weighted isomer entropy (calc_entropy.py lines 224-236) ----

/-- Embedding of `S_isomer_JmolK`.  The Python function consumes a dict of
electronic energies keyed by conformer name, but uses only the collection of
values (`E_Eh.values()`: the emptiness test, the minimum, and one
accumulation pass for `q` and `num`), so the embedding takes the list of
energy values.  The accumulation loop is rendered as two `List.sum`s over
the same per-element formulas. -/
def S_isomer_JmolK (E_Eh : List ℝ) (T : ℝ) : ℝ :=
  match E_Eh with
  | [] => 0
  | e :: es =>
    let Emin := es.foldr min e
    let q := ((e :: es).map (fun Ei => Real.exp (-((Ei - Emin) * Eh_to_Jmol) / (R * T)))).sum
    let num := ((e :: es).map
      (fun Ei => (Ei - Emin) * Eh_to_Jmol * Real.exp (-((Ei - Emin) * Eh_to_Jmol) / (R * T)))).sum
    if q = 0 then 0
    else R * (Real.log q + num / q / (R * T))

-- ---- facts about `List.foldr min`, the embedding of Python `min` ----

lemma foldr_min_le_head (es : List ℝ) (e : ℝ) : es.foldr min e ≤ e := by
  induction es with
  | nil => exact le_refl e
  | cons a as ih => exact le_trans (min_le_right a (as.foldr min e)) ih

lemma foldr_min_le_mem (es : List ℝ) (e : ℝ) : ∀ x ∈ es, es.foldr min e ≤ x := by
  induction es with
  | nil => intro x hx; exact absurd hx (List.not_mem_nil x)
  | cons a as ih =>
    intro x hx
    rw [List.foldr_cons]
    rcases List.mem_cons.mp hx with rfl | hx'
    · exact min_le_left _ _
    · exact le_trans (min_le_right _ _) (ih x hx')

lemma foldr_min_mem (es : List ℝ) (e : ℝ) : es.foldr min e = e ∨ es.foldr min e ∈ es := by
  induction es with
  | nil => exact Or.inl rfl
  | cons a as ih =>
    rw [List.foldr_cons]
    rcases le_total a (as.foldr min e) with hle | hle
    · right
      rw [min_eq_left hle]
      exact List.mem_cons_self a as
    · rw [min_eq_right hle]
      rcases ih with hh | hh
      · exact Or.inl hh
      · exact Or.inr (List.mem_cons_of_mem a hh)

lemma foldr_min_map_add (es : List ℝ) (e c : ℝ) :
    (es.map (fun x => x + c)).foldr min (e + c) = es.foldr min e + c := by
  induction es with
  | nil => rfl
  | cons a as ih =>
    simp only [List.map_cons, List.foldr_cons, ih]
    rcases le_total a (as.foldr min e) with hle | hle
    · rw [min_eq_left (by linarith), min_eq_left hle]
    · rw [min_eq_right (by linarith), min_eq_right hle]

/-- Mapping a function over a uniformly shifted list equals mapping the
compensated function over the original list. -/
lemma map_shift (l : List ℝ) (c : ℝ) (f g : ℝ → ℝ) (hfg : ∀ x, f (x + c) = g x) :
    (l.map (fun x => x + c)).map f = l.map g := by
  induction l with
  | nil => rfl
  | cons a as ih => simp only [List.map_cons, ih, hfg]

/-- C6: the isomer entropy is invariant under adding a constant offset to
every energy value of the input (the subtraction of the minimum cancels the
offset in every Boltzmann factor). -/
theorem C6_theorem (E : List ℝ) (c T : ℝ) (_hT : 0 < T) :
    S_isomer_JmolK (E.map (fun x => x + c)) T = S_isomer_JmolK E T := by
  cases E with
  | nil => simp [S_isomer_JmolK]
  | cons e es =>
    simp only [List.map_cons, S_isomer_JmolK, List.sum_cons]
    rw [foldr_min_map_add es e c]
    have harg : e + c - (es.foldr min e + c) = e - es.foldr min e := by ring
    have hw : (es.map (fun x => x + c)).map
          (fun Ei => Real.exp (-((Ei - (es.foldr min e + c)) * Eh_to_Jmol) / (R * T)))
        = es.map (fun Ei => Real.exp (-((Ei - es.foldr min e) * Eh_to_Jmol) / (R * T))) := by
      apply map_shift
      intro x
      have hx : x + c - (es.foldr min e + c) = x - es.foldr min e := by ring
      rw [hx]
    have hnum : (es.map (fun x => x + c)).map
          (fun Ei => (Ei - (es.foldr min e + c)) * Eh_to_Jmol *
            Real.exp (-((Ei - (es.foldr min e + c)) * Eh_to_Jmol) / (R * T)))
        = es.map (fun Ei => (Ei - es.foldr min e) * Eh_to_Jmol *
            Real.exp (-((Ei - es.foldr min e) * Eh_to_Jmol) / (R * T))) := by
      apply map_shift
      intro x
      have hx : x + c - (es.foldr min e + c) = x - es.foldr min e := by ring
      rw [hx]
    rw [harg, hw, hnum]

/-- Witness for C6 with a two-conformer ensemble shifted by `c = 1`. -/
theorem C6_witness :
    S_isomer_JmolK ([(1 : ℝ), 2].map (fun x => x + 1)) 300 = S_isomer_JmolK [1, 2] 300 :=
  C6_theorem [1, 2] 1 300 (by norm_num)

/-- C7: a single-conformer ensemble has exactly zero isomer entropy for any
energy and any `T > 0`, and the empty ensemble yields zero. -/
theorem C7_theorem :
    (∀ e T : ℝ, 0 < T → S_isomer_JmolK [e] T = 0) ∧
    (∀ T : ℝ, 0 < T → S_isomer_JmolK [] T = 0) := by
  constructor
  · intro e T hT
    simp [S_isomer_JmolK, Real.exp_zero, Real.log_one]
  · intro T _
    rfl

/-- Witness for C7 at a concrete energy and temperature. -/
theorem C7_witness :
    S_isomer_JmolK [(2 : ℝ)] 300 = 0 ∧ S_isomer_JmolK ([] : List ℝ) 300 = 0 :=
  ⟨C7_theorem.1 2 300 (by norm_num), C7_theorem.2 300 (by norm_num)⟩

/-- C10: for every non-empty ensemble and `T > 0` the isomer entropy is
nonnegative: the minimum-energy conformer contributes Boltzmann weight
exactly `1`, so `q ≥ 1` and `log q ≥ 0`, and the weighted excess energy is
a sum of nonnegative terms. -/
theorem C10_theorem (e : ℝ) (es : List ℝ) (T : ℝ) (hT : 0 < T) :
    0 ≤ S_isomer_JmolK (e :: es) T := by
  have hRT : 0 < R * T := mul_pos R_pos hT
  simp only [S_isomer_JmolK]
  set m := es.foldr min e with hm
  have hq1 : 1 ≤ ((e :: es).map
      (fun Ei => Real.exp (-((Ei - m) * Eh_to_Jmol) / (R * T)))).sum := by
    have hmem : m ∈ e :: es := by
      rcases foldr_min_mem es e with hh | hh
      · rw [hm, hh]; exact List.mem_cons_self e es
      · exact List.mem_cons_of_mem e (hm ▸ hh)
    have hwmem : Real.exp (-((m - m) * Eh_to_Jmol) / (R * T)) ∈
        (e :: es).map (fun Ei => Real.exp (-((Ei - m) * Eh_to_Jmol) / (R * T))) :=
      List.mem_map_of_mem _ hmem
    have hwm : Real.exp (-((m - m) * Eh_to_Jmol) / (R * T)) = 1 := by
      rw [sub_self, zero_mul, neg_zero, zero_div, Real.exp_zero]
    have hnn : ∀ y ∈ (e :: es).map
        (fun Ei => Real.exp (-((Ei - m) * Eh_to_Jmol) / (R * T))), 0 ≤ y := by
      intro y hy
      rcases List.mem_map.mp hy with ⟨x, _, rfl⟩
      exact le_of_lt (Real.exp_pos _)
    calc (1 : ℝ) = Real.exp (-((m - m) * Eh_to_Jmol) / (R * T)) := hwm.symm
    _ ≤ _ := List.single_le_sum hnn _ hwmem
  have hqpos : 0 < ((e :: es).map
      (fun Ei => Real.exp (-((Ei - m) * Eh_to_Jmol) / (R * T)))).sum :=
    lt_of_lt_of_le one_pos hq1
  have hnum : 0 ≤ ((e :: es).map
      (fun Ei => (Ei - m) * Eh_to_Jmol *
        Real.exp (-((Ei - m) * Eh_to_Jmol) / (R * T)))).sum := by
    apply List.sum_nonneg
    intro y hy
    rcases List.mem_map.mp hy with ⟨x, hx, rfl⟩
    have hxm : m ≤ x := by
      rcases List.mem_cons.mp hx with rfl | hx'
      · exact hm ▸ foldr_min_le_head es x
      · exact hm ▸ foldr_min_le_mem es e x hx'
    have hfac : 0 ≤ (x - m) * Eh_to_Jmol :=
      mul_nonneg (by linarith) (le_of_lt Eh_to_Jmol_pos)
    exact mul_nonneg hfac (le_of_lt (Real.exp_pos _))
  rw [if_neg (ne_of_gt hqpos)]
  have hlog : 0 ≤ Real.log (((e :: es).map
      (fun Ei => Real.exp (-((Ei - m) * Eh_to_Jmol) / (R * T)))).sum) :=
    Real.log_nonneg hq1
  have havg : 0 ≤ ((e :: es).map
      (fun Ei => (Ei - m) * Eh_to_Jmol *
        Real.exp (-((Ei - m) * Eh_to_Jmol) / (R * T)))).sum /
      ((e :: es).map (fun Ei => Real.exp (-((Ei - m) * Eh_to_Jmol) / (R * T)))).sum /
      (R * T) :=
    div_nonneg (div_nonneg hnum (le_of_lt hqpos)) (le_of_lt hRT)
  have := add_nonneg hlog havg
  exact mul_nonneg (le_of_lt R_pos) this

/-- Witness for C10 with a concrete two-conformer ensemble. -/
theorem C10_witness : 0 ≤ S_isomer_JmolK [(1 : ℝ), 2] 300 :=
  C10_theorem 1 [2] 300 (by norm_num)

-- ---- vector/matrix primitives (calc_entropy.py lines 67-78) ----

def Vec3 : Type := ℝ × ℝ × ℝ

def Mat3 : Type := Vec3 × Vec3 × Vec3

def dot3 (a b : ℝ × ℝ × ℝ) : ℝ :=
  a.1 * b.1 + a.2.1 * b.2.1 + a.2.2 * b.2.2

def matvec3 (M : (ℝ × ℝ × ℝ) × (ℝ × ℝ × ℝ) × (ℝ × ℝ × ℝ)) (v : ℝ × ℝ × ℝ) : ℝ × ℝ × ℝ :=
  (M.1.1 * v.1 + M.1.2.1 * v.2.1 + M.1.2.2 * v.2.2,
   M.2.1.1 * v.1 + M.2.1.2.1 * v.2.1 + M.2.1.2.2 * v.2.2,
   M.2.2.1 * v.1 + M.2.2.2.1 * v.2.1 + M.2.2.2.2 * v.2.2)

def norm3 (v : ℝ × ℝ × ℝ) : ℝ := Real.sqrt (dot3 v v)

-- ---- quasi-translational frequency (calc_entropy.py lines 168-175) ----

/-- Embedding of `nu_trans_cm`.  The cage length is
`L_m = (Vfree*3/(4π))^(1/3) * bohr_m`.  When the base `Vfree*3/(4π)` is
negative, Python's float `**` with the non-integral exponent `1/3` yields a
complex number and the following comparison `L_m <= 0.0` raises `TypeError`,
so the function fails; this path is `none`.  Otherwise the source returns
`0` when `L_m ≤ 0` and `sqrt(2π kB T / m) / L_m / (2π) / c_cm` else. -/
def nu_trans_cm (Vfree mw_amu T : ℝ) : Option ℝ :=
  if Vfree * 3 / (4 * Real.pi) < 0 then none
  else if (Vfree * 3 / (4 * Real.pi)) ^ ((1 : ℝ)/3) * bohr_m ≤ 0 then some 0
  else some (Real.sqrt (2 * Real.pi * kB * T / (mw_amu * amu_kg)) * 1 /
    ((Vfree * 3 / (4 * Real.pi)) ^ ((1 : ℝ)/3) * bohr_m) / (2 * Real.pi) / c_cm)

/-- C8: the claim says `nu_trans_cm` is total and returns `0` whenever the
cage length is `≤ 0`, in particular for `Vfree ≤ 0`.  At the failing input
`Vfree = -1` the code instead fails (the negative base raised to `1/3` is
complex and the guard comparison raises `TypeError`, modelled as `none`);
only the boundary case `Vfree = 0` reaches the guard and returns `0`. -/
theorem C8_code_eval :
    nu_trans_cm (-1) 18 300 = none ∧ nu_trans_cm 0 18 300 = some 0 := by
  constructor
  · unfold nu_trans_cm
    rw [if_pos (div_neg_of_neg_of_pos (by norm_num) (by positivity))]
  · unfold nu_trans_cm
    have hb : (0 : ℝ) * 3 / (4 * Real.pi) = 0 := by rw [zero_mul, zero_div]
    rw [if_neg (by rw [hb]; exact lt_irrefl 0),
      if_pos (by rw [hb, Real.zero_rpow (by norm_num : ((1 : ℝ)/3) ≠ 0), zero_mul])]

-- ---- quasi-rotational frequencies (calc_entropy.py lines 178-221) ----

/-- Embedding of the inner helper `inertia_from_Bcm`: a zero rotational
constant maps to the huge sentinel inertia `1e99`. -/
def inertia_from_Bcm (Bcm : ℝ) : ℝ :=
  if Bcm = 0 then 1e99
  else h / (8 * Real.pi ^ 2 * c_m * (Bcm * 100))

/-- Embedding of the inner helper `wavenumber_from_I`; the closed-over
`k_eff_J` and `nu_floor_cm` are passed explicitly. -/
def wavenumber_from_I (k_eff_J nu_floor_cm I : ℝ) : ℝ :=
  if I = 0 then 0
  else if nu_floor_cm > 0 ∧ 1 / (2 * Real.pi) * Real.sqrt (k_eff_J / I) / c_cm < nu_floor_cm then
    nu_floor_cm
  else 1 / (2 * Real.pi) * Real.sqrt (k_eff_J / I) / c_cm

/-- Embedding of `nu_rot_cm` (keyword arguments become the last two
parameters). -/
def nu_rot_cm (rot_cm : ℝ × ℝ × ℝ) (mu_liq_au mu_gas_au : ℝ × ℝ × ℝ)
    (alpha_au : (ℝ × ℝ × ℝ) × (ℝ × ℝ × ℝ) × (ℝ × ℝ × ℝ))
    (T nu_floor_cm : ℝ) (use_avg_curv : Bool) : ℝ × ℝ × ℝ :=
  let mu_star : ℝ × ℝ × ℝ := (mu_liq_au.1 - mu_gas_au.1, mu_liq_au.2.1 - mu_gas_au.2.1,
    mu_liq_au.2.2 - mu_gas_au.2.2)
  let mu_star_norm := norm3 mu_star
  if mu_star_norm = 0 then (0, 0, 0)
  else
    let u : ℝ × ℝ × ℝ := (mu_star.1 / mu_star_norm, mu_star.2.1 / mu_star_norm,
      mu_star.2.2 / mu_star_norm)
    let au := matvec3 alpha_au u
    let P := dot3 u au
    if P ≤ 0 then (0, 0, 0)
    else
      let muE_Eh := mu_star_norm ^ 2 / P
      let muE_J := muE_Eh * Eh_J
      let k_eff_J := if use_avg_curv then _keff_from_muE muE_J T else muE_J
      (wavenumber_from_I k_eff_J nu_floor_cm (inertia_from_Bcm rot_cm.1),
       wavenumber_from_I k_eff_J nu_floor_cm (inertia_from_Bcm rot_cm.2.1),
       wavenumber_from_I k_eff_J nu_floor_cm (inertia_from_Bcm rot_cm.2.2))

/-- The sentinel construction never produces an exactly-zero inertia, so
the `I == 0` early return inside `wavenumber_from_I` is unreachable from
`nu_rot_cm`. -/
lemma inertia_from_Bcm_ne_zero (Bcm : ℝ) : inertia_from_Bcm Bcm ≠ 0 := by
  unfold inertia_from_Bcm
  split_ifs with hB
  · norm_num
  · apply div_ne_zero (ne_of_gt h_pos)
    apply mul_ne_zero
    · apply mul_ne_zero
      · apply mul_ne_zero (by norm_num)
        exact pow_ne_zero 2 Real.pi_ne_zero
      · exact ne_of_gt c_m_pos
    · exact mul_ne_zero hB (by norm_num)

/-- With a positive floor the helper clamps to `max` of the floor and the
raw (floor-0) value. -/
lemma wavenumber_from_I_floor (k f I : ℝ) (hf : 0 < f) (hI : I ≠ 0) :
    wavenumber_from_I k f I = max f (wavenumber_from_I k 0 I) := by
  unfold wavenumber_from_I
  rw [if_neg hI, if_neg hI,
    if_neg (show ¬((0 : ℝ) > 0 ∧ 1 / (2 * Real.pi) * Real.sqrt (k / I) / c_cm < 0) from
      fun hc => lt_irrefl 0 hc.1)]
  by_cases hlt : 1 / (2 * Real.pi) * Real.sqrt (k / I) / c_cm < f
  · rw [if_pos ⟨hf, hlt⟩, max_eq_left (le_of_lt hlt)]
  · rw [if_neg fun hc => hlt hc.2, max_eq_right (not_lt.mp hlt)]

/-- C2 counterexample: with identical dipole vectors and a positive floor
`f = 5`, `nu_rot_cm` returns the degenerate triple `(0,0,0)`, so a returned
wavenumber *is* below the floor — the clamp does not apply on the
degenerate early-return paths. -/
theorem C2_counterexample :
    nu_rot_cm (1, 1, 1) (0, 0, 0) (0, 0, 0) ((1, 0, 0), (0, 1, 0), (0, 0, 1)) 300 5 true
      = (0, 0, 0) ∧
    (nu_rot_cm (1, 1, 1) (0, 0, 0) (0, 0, 0) ((1, 0, 0), (0, 1, 0), (0, 0, 1)) 300 5 true).1
      < 5 := by
  have he : nu_rot_cm (1, 1, 1) (0, 0, 0) (0, 0, 0) ((1, 0, 0), (0, 1, 0), (0, 0, 1)) 300 5 true
      = ((0 : ℝ), (0 : ℝ), (0 : ℝ)) := by
    simp [nu_rot_cm, norm3, dot3]
  refine ⟨he, ?_⟩
  rw [he]
  norm_num

/-- C2 (amended): on the non-degenerate path (nonzero dipole difference and
positive polarizability projection), every component returned with a
positive floor `f` equals `max f` of the corresponding raw (floor `0`)
component: values computed below `f` are reported as exactly `f`, values at
or above `f` are unchanged, and with floor `0` the clamp test is inert by
definition.  On the degenerate early-return paths the triple `(0,0,0)` is
returned regardless of the floor. -/
theorem C2_theorem (A B C : ℝ) (mL mG : ℝ × ℝ × ℝ)
    (alpha : (ℝ × ℝ × ℝ) × (ℝ × ℝ × ℝ) × (ℝ × ℝ × ℝ)) (T f : ℝ) (b : Bool)
    (ms u : ℝ × ℝ × ℝ)
    (hms : ms = (mL.1 - mG.1, mL.2.1 - mG.2.1, mL.2.2 - mG.2.2))
    (hn : ¬ norm3 ms = 0)
    (hu : u = (ms.1 / norm3 ms, ms.2.1 / norm3 ms, ms.2.2 / norm3 ms))
    (hP : ¬ dot3 u (matvec3 alpha u) ≤ 0)
    (hf : 0 < f) :
    nu_rot_cm (A, B, C) mL mG alpha T f b =
      (max f (nu_rot_cm (A, B, C) mL mG alpha T 0 b).1,
       max f (nu_rot_cm (A, B, C) mL mG alpha T 0 b).2.1,
       max f (nu_rot_cm (A, B, C) mL mG alpha T 0 b).2.2) := by
  subst hms hu
  simp only [nu_rot_cm]
  rw [if_neg hn, if_neg hn, if_neg hP, if_neg hP]
  simp only
  rw [wavenumber_from_I_floor _ f _ hf (inertia_from_Bcm_ne_zero A),
    wavenumber_from_I_floor _ f _ hf (inertia_from_Bcm_ne_zero B),
    wavenumber_from_I_floor _ f _ hf (inertia_from_Bcm_ne_zero C)]

/-- Witness for the amended C2 at concrete non-degenerate inputs. -/
theorem C2_witness :
    nu_rot_cm (1, 1, 1) (1, 0, 0) (0, 0, 0) ((1, 0, 0), (0, 1, 0), (0, 0, 1)) 300 5 true =
      (max 5 (nu_rot_cm (1, 1, 1) (1, 0, 0) (0, 0, 0) ((1, 0, 0), (0, 1, 0), (0, 0, 1))
          300 0 true).1,
       max 5 (nu_rot_cm (1, 1, 1) (1, 0, 0) (0, 0, 0) ((1, 0, 0), (0, 1, 0), (0, 0, 1))
          300 0 true).2.1,
       max 5 (nu_rot_cm (1, 1, 1) (1, 0, 0) (0, 0, 0) ((1, 0, 0), (0, 1, 0), (0, 0, 1))
          300 0 true).2.2) := by
  apply C2_theorem 1 1 1 (1, 0, 0) (0, 0, 0) ((1, 0, 0), (0, 1, 0), (0, 0, 1)) 300 5 true
    (1, 0, 0) (1, 0, 0)
  · norm_num
  · norm_num [norm3, dot3, Real.sqrt_one]
  · norm_num [norm3, dot3, Real.sqrt_one]
  · norm_num [norm3, dot3, matvec3, Real.sqrt_one]
  · norm_num
